import Mathlib

/-!
# Verification of the PPTX round-trip engine (anupamurl/cml)

A shallow embedding of the backend's PPTX editing pipeline:

* unit conversion between inches and EMU (`src/backend/server.js`
  `processImageForPptx`, `src/backend/insertImage.js` `insertImageIntoSlide`,
  `src/backend/tableGenerator.js` `insertTableIntoSlide`);
* the dimension-normalizer pass (`fixPptxImageDimensions`);
* the element matcher and the generate loop (`/api/generate` handler);
* the text patcher (`replaceTextInXml`);
* slide-file discovery and relationship merging (`parsePptx`);
* table generation (`insertTableIntoSlide`, `replaceTableInXml`).

JavaScript strings are modelled as `List Char`; JavaScript numbers as `ℚ`
(element coordinates come in through JSON as decimal numerals, so the
rational model is exact on the values the requests can carry); JavaScript
objects used as dictionaries as functions `List Char → Option (List Char)`;
`NaN` results of `parseInt` as `Option`.
-/

namespace Cml

/-- Character list of a string literal (JS strings are modelled as `List Char`). -/
def strL (s : String) : List Char := s.data

/-! ## JavaScript numeric primitives -/

/-- JS `Math.round`: rounds to the nearest integer, halves toward `+∞`. -/
def jsMathRound (q : ℚ) : ℤ := ⌊q + 1/2⌋

/-- JS `parseInt` applied to a finite `Number` (the engine stringifies the
number and reads the integer prefix): truncation toward zero. -/
def jsTruncToInt (q : ℚ) : ℤ := if 0 ≤ q then ⌊q⌋ else -⌊-q⌋

/-- EMUs per inch (the constant `914400` used throughout the source). -/
def emuPerInch : ℚ := 914400

/-- Inch→EMU conversion of the image patcher: `parseInt(position.x * 914400)`
(`insertImage.js` lines 35–38, `server.js` `processImageForPptx` lines
575–586). -/
def imagePatcherToEMU (v : ℚ) : ℤ := jsTruncToInt (v * emuPerInch)

/-- Inch→EMU conversion of the table generator:
`Math.round((element.x || 1) * 914400)` (`tableGenerator.js` lines 9–13). -/
def tableGeneratorToEMU (v : ℚ) : ℤ := jsMathRound (v * emuPerInch)

/-! ## Decimal digit strings

`natDigits` models the digit string JS `Number.prototype.toString` produces
for a nonnegative integer; the fuel argument makes the recursion structural
(the fuel `n + 1` always suffices since `n / 10 < n` for `n ≥ 10`). -/

/-- One decimal digit character. -/
def digitChar (d : ℕ) : Char := Char.ofNat (48 + d)

/-- Digit string of `n`, recursing on fuel. -/
def natDigitsRun : ℕ → ℕ → List Char
  | 0, _ => []
  | fuel + 1, n =>
    if n < 10 then [digitChar n]
    else natDigitsRun fuel (n / 10) ++ [digitChar (n % 10)]

/-- Decimal digit string of a natural number. -/
def natDigits (n : ℕ) : List Char := natDigitsRun (n + 1) n

/-- JS `toString` of an integer-valued `Number`. -/
def intToStr (n : ℤ) : List Char :=
  if n < 0 then '-' :: natDigits n.natAbs else natDigits n.toNat

/-- Numeric value of a digit string (used by the `parseInt` model). -/
def natOfDigits (l : List Char) : ℕ :=
  l.foldl (fun a c => 10 * a + (c.toNat - 48)) 0

/-- JS whitespace skipped by `parseInt`. -/
def isJsSpace (c : Char) : Bool := c = ' ' || c = '\t' || c = '\n' || c = '\r'

/-- JS `parseInt` on a string (radix 10; the automatic hexadecimal `0x` form
never occurs on the attribute strings this code reads and is not modelled):
skip whitespace, read an optional sign and then the longest digit prefix;
`none` models the `NaN` result when no digits are found. -/
def jsParseIntStr (s : List Char) : Option ℤ :=
  let t := s.dropWhile isJsSpace
  match t with
  | '-' :: rest =>
      let ds := rest.takeWhile Char.isDigit
      if ds = [] then none else some (-(natOfDigits ds : ℤ))
  | '+' :: rest =>
      let ds := rest.takeWhile Char.isDigit
      if ds = [] then none else some (natOfDigits ds : ℤ)
  | _ =>
      let ds := t.takeWhile Char.isDigit
      if ds = [] then none else some (natOfDigits ds : ℤ)

/-- Does the string parse as a plain base-10 integer (optional minus sign,
then digits only — no decimal point, no exponent, nothing else)? -/
def isIntegerString : List Char → Bool
  | [] => false
  | c :: rest =>
    if c = '-' then rest ≠ [] && rest.all Char.isDigit
    else (c :: rest).all Char.isDigit

/-! ## Basic lemmas about the numeric primitives -/

theorem jsMathRound_intCast (n : ℤ) : jsMathRound (n : ℚ) = n := by
  unfold jsMathRound
  rw [Int.floor_eq_iff]
  constructor
  · linarith
  · linarith

theorem natDigitsRun_spec :
    ∀ fuel n, n < fuel →
      natDigitsRun fuel n ≠ [] ∧ (natDigitsRun fuel n).all Char.isDigit = true := by
  intro fuel
  induction fuel with
  | zero => intro n hn; omega
  | succ f ih =>
    intro n hn
    unfold natDigitsRun
    by_cases h10 : n < 10
    · rw [if_pos h10]
      refine ⟨by simp, ?_⟩
      interval_cases n <;> decide
    · rw [if_neg h10]
      have hdiv : n / 10 < f := by
        have : n / 10 < n := Nat.div_lt_self (by omega) (by omega)
        omega
      obtain ⟨hne, hall⟩ := ih (n / 10) hdiv
      constructor
      · simp
      · rw [List.all_append, hall, Bool.true_and]
        have hmod : n % 10 < 10 := Nat.mod_lt _ (by omega)
        set m := n % 10 with hm
        interval_cases m <;> decide

theorem natDigits_spec (n : ℕ) :
    natDigits n ≠ [] ∧ (natDigits n).all Char.isDigit = true :=
  natDigitsRun_spec (n + 1) n (Nat.lt_succ_self n)

theorem isIntegerString_intToStr (n : ℤ) : isIntegerString (intToStr n) = true := by
  unfold intToStr
  by_cases hn : n < 0
  · rw [if_pos hn]
    obtain ⟨hne, hall⟩ := natDigits_spec n.natAbs
    simp [isIntegerString, hne, hall]
  · rw [if_neg hn]
    obtain ⟨hne, hall⟩ := natDigits_spec n.toNat
    cases hd : natDigits n.toNat with
    | nil => exact absurd hd hne
    | cons c rest =>
      rw [hd] at hall
      have hcd : c.isDigit = true := by
        simp only [List.all_cons, Bool.and_eq_true] at hall
        exact hall.1
      have hcne : ¬ c = '-' := by
        intro hc
        rw [hc] at hcd
        exact absurd hcd (by decide)
      simp only [isIntegerString]
      rw [if_neg hcne]
      exact hall

/-! ## The dimension normalizer (`fixPptxImageDimensions`)

`fixPptxImageDimensions` walks each slide's shape tree as parsed by xml2js
and, for every **picture** (`p:pic`) directly under `p:spTree`, rewrites the
`a:off` attributes `x`,`y` and the `a:ext` attributes `cx`,`cy` with
`Math.round(parseInt(v)).toString()`.  Shapes, connectors and graphic
frames are not touched.  We model one slide as the list of its top-level
shape-tree children, each carrying its kind and (optionally) its transform
attribute strings. -/

/-- Kind of a top-level shape-tree child (`p:sp`, `p:pic`, `p:cxnSp`,
`p:graphicFrame`). -/
inductive ElemKind
  | shape
  | pic
  | connector
  | frame
deriving DecidableEq

/-- The `a:off` attribute pair of a transform. -/
structure OffAttrs where
  x : List Char
  y : List Char
deriving DecidableEq

/-- The `a:ext` attribute pair of a transform. -/
structure ExtAttrs where
  cx : List Char
  cy : List Char
deriving DecidableEq

/-- An `a:xfrm` node: either attribute group may be absent. -/
structure Xfrm where
  off : Option OffAttrs
  ext : Option ExtAttrs
deriving DecidableEq

/-- A top-level shape-tree child: its kind and its `p:spPr/a:xfrm` node,
when present. -/
structure SlideElem where
  kind : ElemKind
  xfrm : Option Xfrm
deriving DecidableEq

/-- The per-attribute rewrite of the normalizer:
`Math.round(parseInt(v)).toString()`.  `parseInt` of a non-numeric string is
`NaN`, `Math.round(NaN)` is `NaN`, and `NaN.toString()` is the string
`"NaN"`. -/
def normalizeDimAttr (s : List Char) : List Char :=
  match jsParseIntStr s with
  | none => strL "NaN"
  | some n => intToStr (jsMathRound (n : ℚ))

/-- Normalize both attribute groups of a transform (each only when present,
mirroring the `if (xfrm['a:off'] ...)` / `if (xfrm['a:ext'] ...)` guards). -/
def normalizeXfrm (t : Xfrm) : Xfrm where
  off := t.off.map fun o => ⟨normalizeDimAttr o.x, normalizeDimAttr o.y⟩
  ext := t.ext.map fun e => ⟨normalizeDimAttr e.cx, normalizeDimAttr e.cy⟩

/-- The normalizer applied to one shape-tree child: only pictures with a
transform are rewritten. -/
def fixElem (e : SlideElem) : SlideElem :=
  if e.kind = ElemKind.pic then { e with xfrm := e.xfrm.map normalizeXfrm } else e

/-- The normalizer pass over one slide's top-level shape-tree children
(`fixPptxImageDimensions`, `src/unnamed/part_000` lines 29–76). -/
def fixSlideElems (l : List SlideElem) : List SlideElem := l.map fixElem

/-- The property C3 claims of a normalized slide: every offset and extent
attribute of every element parses as a base-10 integer. -/
def allTransformsInteger (l : List SlideElem) : Prop :=
  ∀ e ∈ l, ∀ t, e.xfrm = some t →
    (∀ o, t.off = some o → isIntegerString o.x = true ∧ isIntegerString o.y = true) ∧
    (∀ x, t.ext = some x → isIntegerString x.cx = true ∧ isIntegerString x.cy = true)

instance (l : List SlideElem) : Decidable (allTransformsInteger l) := by
  unfold allTransformsInteger
  infer_instance

/-- A numeric attribute string (one with an integer prefix) is rewritten by
the normalizer into a clean integer string. -/
theorem normalizeDimAttr_integer (s : List Char) (h : (jsParseIntStr s).isSome) :
    isIntegerString (normalizeDimAttr s) = true := by
  unfold normalizeDimAttr
  cases hp : jsParseIntStr s with
  | none => rw [hp] at h; exact absurd h (by simp)
  | some n => exact isIntegerString_intToStr _

theorem fixElem_kind (e : SlideElem) : (fixElem e).kind = e.kind := by
  unfold fixElem
  split <;> rfl

/-- C1 (counterexample): the claim says the image patcher's inch→EMU
conversion rounds to the nearest integer.  At `x = 1828801/1828800` inches
the exact EMU value is `914400.5`; `parseInt` truncates it to `914400`
while round-to-nearest gives `914401`. -/
theorem imagePatcherToEMU_not_round :
    imagePatcherToEMU (1828801/1828800) ≠
      jsMathRound ((1828801/1828800 : ℚ) * emuPerInch) := by
  have hq : (1828801/1828800 : ℚ) * emuPerInch = 1828801/2 := by
    norm_num [emuPerInch]
  have h1 : imagePatcherToEMU (1828801/1828800) = 914400 := by
    unfold imagePatcherToEMU jsTruncToInt
    rw [hq, if_pos (by norm_num)]
    rw [Int.floor_eq_iff]
    norm_num
  have h2 : jsMathRound ((1828801/1828800 : ℚ) * emuPerInch) = 914401 := by
    unfold jsMathRound
    rw [hq]
    have : (1828801 : ℚ)/2 + 1/2 = ((914401 : ℤ) : ℚ) := by norm_num
    rw [this, Int.floor_intCast]
  rw [h1, h2]
  decide

/-- C1 (amended): of the two inch→EMU conversions that write position/size
back into slide XML, the table generator's (`Math.round(v * 914400)`)
rounds to the nearest integer, but the image patcher's
(`parseInt(v * 914400)`) truncates toward zero: on nonnegative
coordinates it is the floor, so the serialized EMU value underestimates
the exact one by up to (but less than) one EMU, while the table
generator's value is within half an EMU. -/
theorem imagePatcher_truncates_tableGenerator_rounds (v : ℚ) (hv : 0 ≤ v) :
    imagePatcherToEMU v = ⌊v * emuPerInch⌋ ∧
    ((imagePatcherToEMU v : ℚ) ≤ v * emuPerInch ∧
      v * emuPerInch - 1 < (imagePatcherToEMU v : ℚ)) ∧
    |(tableGeneratorToEMU v : ℚ) - v * emuPerInch| ≤ 1/2 := by
  have hnn : 0 ≤ v * emuPerInch := mul_nonneg hv (by norm_num [emuPerInch])
  have heq : imagePatcherToEMU v = ⌊v * emuPerInch⌋ := by
    unfold imagePatcherToEMU jsTruncToInt
    rw [if_pos hnn]
  refine ⟨heq, ⟨?_, ?_⟩, ?_⟩
  · rw [heq]
    exact Int.floor_le _
  · rw [heq]
    have := Int.lt_floor_add_one (v * emuPerInch)
    linarith
  · unfold tableGeneratorToEMU jsMathRound
    have h1 := Int.floor_le (v * emuPerInch + 1/2)
    have h2 := Int.lt_floor_add_one (v * emuPerInch + 1/2)
    rw [abs_le]
    constructor <;> linarith

/-- Witness for the amended C1 at `v = 3/2` inches. -/
theorem imagePatcher_truncates_tableGenerator_rounds_witness :
    (0 : ℚ) ≤ 3/2 ∧
    (imagePatcherToEMU (3/2) = ⌊(3/2 : ℚ) * emuPerInch⌋ ∧
      ((imagePatcherToEMU (3/2) : ℚ) ≤ (3/2 : ℚ) * emuPerInch ∧
        (3/2 : ℚ) * emuPerInch - 1 < (imagePatcherToEMU (3/2) : ℚ)) ∧
      |(tableGeneratorToEMU (3/2) : ℚ) - (3/2 : ℚ) * emuPerInch| ≤ 1/2) :=
  ⟨by norm_num, imagePatcher_truncates_tableGenerator_rounds (3/2) (by norm_num)⟩

/-- C2: the normalizer's attribute rewrite
`Math.round(parseInt(v)).toString()` has no guard for non-numeric input:
`parseInt("abc")` is `NaN` and the string `"NaN"` is serialized into the
offset attribute instead of the safe default `"0"` the claim requires.
Evaluated on a slide whose only picture has offset attributes
`x="abc"`, `y="xyz"`. -/
theorem normalizer_writes_NaN :
    normalizeDimAttr (strL "abc") = strL "NaN" ∧
    normalizeDimAttr (strL "abc") ≠ strL "0" ∧
    fixSlideElems [⟨ElemKind.pic, some ⟨some ⟨strL "abc", strL "xyz"⟩, none⟩⟩] =
      [⟨ElemKind.pic, some ⟨some ⟨strL "NaN", strL "NaN"⟩, none⟩⟩] := by
  decide

/-- C3 (counterexample): the normalizer pass only rewrites pictures, so a
shape (`p:sp`) whose offset attribute is the fractional string `"1.5"`
still carries `"1.5"` afterwards — not every transform attribute of every
element parses as a base-10 integer. -/
theorem normalizer_skips_shape_attrs :
    ¬ allTransformsInteger
        (fixSlideElems [⟨ElemKind.shape, some ⟨some ⟨strL "1.5", strL "2"⟩, none⟩⟩]) := by
  decide

/-- C3 (amended): after the normalizer pass, every offset/extent attribute
of every **top-level picture** element parses as a base-10 integer,
provided the original attribute strings are numeric (have an integer
prefix for `parseInt`); elements that are not pictures are left entirely
unchanged by the pass. -/
theorem normalizer_integers_on_pics (l : List SlideElem)
    (h : ∀ e ∈ l, e.kind = ElemKind.pic → ∀ t, e.xfrm = some t →
      (∀ o, t.off = some o →
        (jsParseIntStr o.x).isSome ∧ (jsParseIntStr o.y).isSome) ∧
      (∀ x, t.ext = some x →
        (jsParseIntStr x.cx).isSome ∧ (jsParseIntStr x.cy).isSome)) :
    (∀ e ∈ fixSlideElems l, e.kind = ElemKind.pic → ∀ t, e.xfrm = some t →
      (∀ o, t.off = some o →
        isIntegerString o.x = true ∧ isIntegerString o.y = true) ∧
      (∀ x, t.ext = some x →
        isIntegerString x.cx = true ∧ isIntegerString x.cy = true)) ∧
    (∀ e : SlideElem, e.kind ≠ ElemKind.pic → fixElem e = e) := by
  constructor
  · intro e he hkind t ht
    rw [fixSlideElems, List.mem_map] at he
    obtain ⟨e₀, he₀, rfl⟩ := he
    have hk₀ : e₀.kind = ElemKind.pic := by rw [← fixElem_kind]; exact hkind
    have hfix : fixElem e₀ = { e₀ with xfrm := e₀.xfrm.map normalizeXfrm } := by
      unfold fixElem
      rw [if_pos hk₀]
    rw [hfix] at ht
    simp only [Option.map_eq_some'] at ht
    obtain ⟨t₀, ht₀, rfl⟩ := ht
    obtain ⟨hoff, hext⟩ := h e₀ he₀ hk₀ t₀ ht₀
    constructor
    · intro o ho
      simp only [normalizeXfrm, Option.map_eq_some'] at ho
      obtain ⟨o₀, ho₀, rfl⟩ := ho
      obtain ⟨hx, hy⟩ := hoff o₀ ho₀
      exact ⟨normalizeDimAttr_integer _ hx, normalizeDimAttr_integer _ hy⟩
    · intro x hx'
      simp only [normalizeXfrm, Option.map_eq_some'] at hx'
      obtain ⟨x₀, hx₀, rfl⟩ := hx'
      obtain ⟨hcx, hcy⟩ := hext x₀ hx₀
      exact ⟨normalizeDimAttr_integer _ hcx, normalizeDimAttr_integer _ hcy⟩
  · intro e hk
    unfold fixElem
    rw [if_neg hk]

/-- Witness for the amended C3: a slide with one picture (`x="12.5"`,
`y="3"`, extent absent) and one connector. -/
theorem normalizer_integers_on_pics_witness :
    (∀ e ∈ [(⟨ElemKind.pic, some ⟨some ⟨strL "12.5", strL "3"⟩, none⟩⟩ : SlideElem),
            ⟨ElemKind.connector, some ⟨some ⟨strL "7.25", strL "8"⟩, none⟩⟩],
      e.kind = ElemKind.pic → ∀ t, e.xfrm = some t →
      (∀ o, t.off = some o →
        (jsParseIntStr o.x).isSome ∧ (jsParseIntStr o.y).isSome) ∧
      (∀ x, t.ext = some x →
        (jsParseIntStr x.cx).isSome ∧ (jsParseIntStr x.cy).isSome)) ∧
    ((∀ e ∈ fixSlideElems
          [(⟨ElemKind.pic, some ⟨some ⟨strL "12.5", strL "3"⟩, none⟩⟩ : SlideElem),
           ⟨ElemKind.connector, some ⟨some ⟨strL "7.25", strL "8"⟩, none⟩⟩],
        e.kind = ElemKind.pic → ∀ t, e.xfrm = some t →
        (∀ o, t.off = some o →
          isIntegerString o.x = true ∧ isIntegerString o.y = true) ∧
        (∀ x, t.ext = some x →
          isIntegerString x.cx = true ∧ isIntegerString x.cy = true)) ∧
      (∀ e : SlideElem, e.kind ≠ ElemKind.pic → fixElem e = e)) :=
  ⟨by decide, normalizer_integers_on_pics _ (by decide)⟩

/-! ## The element matcher (`/api/generate`, `server.js` lines 1553–1573)

For each edited element the handler looks up the corresponding original:
first by exact `id` equality, then (same `type`, both coordinates within
0.1 inch), then (same `type`, both coordinates within 1 inch), each with
`Array.find` (first hit wins); `undefined`/`null` when nothing matches. -/

/-- An extracted element as the matcher sees it: string `id` (e.g.
`"image-3"`), string `type` (`"text"`, `"image"`, `"table"`, `"shape"`),
position in inches. -/
structure PElem where
  id : List Char
  type : List Char
  x : ℚ
  y : ℚ
deriving DecidableEq

/-- Tier-2 predicate: same type, both coordinates strictly within 0.1 in. -/
def tightMatch (e o : PElem) : Bool :=
  decide (o.type = e.type) && decide (|o.x - e.x| < 1/10) && decide (|o.y - e.y| < 1/10)

/-- Tier-3 predicate: same type, both coordinates strictly within 1 in. -/
def looseMatch (e o : PElem) : Bool :=
  decide (o.type = e.type) && decide (|o.x - e.x| < 1) && decide (|o.y - e.y| < 1)

/-- The three-tier element matcher. -/
def findMatch (e : PElem) (os : List PElem) : Option PElem :=
  match os.find? (fun o => decide (o.id = e.id)) with
  | some o => some o
  | none =>
    match os.find? (tightMatch e) with
    | some o => some o
    | none => os.find? (looseMatch e)

/-- C4: the matcher resolves the original by precedence id-equality, then
tight position+type, then loose position+type, first hit winning within a
tier; an id match is taken no matter how far the positions are apart, and
when no tier matches the result is empty. -/
theorem matcher_precedence (e : PElem) (os : List PElem) :
    ((∃ o ∈ os, o.id = e.id) →
      findMatch e os = os.find? (fun o => decide (o.id = e.id)) ∧
      ∃ o', findMatch e os = some o' ∧ o'.id = e.id) ∧
    ((∀ o ∈ os, o.id ≠ e.id) → (∃ o ∈ os, tightMatch e o = true) →
      findMatch e os = os.find? (tightMatch e)) ∧
    ((∀ o ∈ os, o.id ≠ e.id) → (∀ o ∈ os, tightMatch e o = false) →
      findMatch e os = os.find? (looseMatch e)) ∧
    ((∀ o ∈ os, o.id ≠ e.id ∧ tightMatch e o = false ∧ looseMatch e o = false) →
      findMatch e os = none) := by
  refine ⟨?_, ?_, ?_, ?_⟩
  · intro hex
    have hsome : (os.find? (fun o => decide (o.id = e.id))).isSome := by
      rw [List.find?_isSome]
      obtain ⟨o, ho, hid⟩ := hex
      exact ⟨o, ho, by simpa using hid⟩
    obtain ⟨o', ho'⟩ := Option.isSome_iff_exists.mp hsome
    have hid' : o'.id = e.id := by simpa using List.find?_some ho'
    unfold findMatch
    rw [ho']
    exact ⟨rfl, o', rfl, hid'⟩
  · intro hid hex
    have hnone : os.find? (fun o => decide (o.id = e.id)) = none := by
      rw [List.find?_eq_none]
      intro o ho
      simpa using hid o ho
    have hsome : (os.find? (tightMatch e)).isSome := by
      rw [List.find?_isSome]
      obtain ⟨o, ho, ht⟩ := hex
      exact ⟨o, ho, ht⟩
    obtain ⟨o', ho'⟩ := Option.isSome_iff_exists.mp hsome
    unfold findMatch
    rw [hnone, ho']
  · intro hid htight
    have hnone : os.find? (fun o => decide (o.id = e.id)) = none := by
      rw [List.find?_eq_none]
      intro o ho
      simpa using hid o ho
    have hnone2 : os.find? (tightMatch e) = none := by
      rw [List.find?_eq_none]
      intro o ho
      simp [htight o ho]
    unfold findMatch
    rw [hnone, hnone2]
  · intro hall
    have hnone : os.find? (fun o => decide (o.id = e.id)) = none := by
      rw [List.find?_eq_none]
      intro o ho
      simpa using (hall o ho).1
    have hnone2 : os.find? (tightMatch e) = none := by
      rw [List.find?_eq_none]
      intro o ho
      simp [(hall o ho).2.1]
    have hnone3 : os.find? (looseMatch e) = none := by
      rw [List.find?_eq_none]
      intro o ho
      simp [(hall o ho).2.2]
    unfold findMatch
    rw [hnone, hnone2, hnone3]

/-- Witness for C4: the edited image at `(5, 5)` matches the original with
the same id sitting 15 inches away, not the perfectly positioned original
with a different id. -/
theorem matcher_precedence_witness :
    (∃ o ∈ [(⟨strL "image-9", strL "image", 5, 5⟩ : PElem),
            ⟨strL "image-1", strL "image", 20, 1/2⟩],
      o.id = (⟨strL "image-1", strL "image", 5, 5⟩ : PElem).id) ∧
    (findMatch ⟨strL "image-1", strL "image", 5, 5⟩
        [⟨strL "image-9", strL "image", 5, 5⟩, ⟨strL "image-1", strL "image", 20, 1/2⟩] =
      List.find? (fun o => decide (o.id = (⟨strL "image-1", strL "image", 5, 5⟩ : PElem).id))
        [⟨strL "image-9", strL "image", 5, 5⟩, ⟨strL "image-1", strL "image", 20, 1/2⟩] ∧
      ∃ o', findMatch ⟨strL "image-1", strL "image", 5, 5⟩
          [⟨strL "image-9", strL "image", 5, 5⟩, ⟨strL "image-1", strL "image", 20, 1/2⟩] =
            some o' ∧
        o'.id = (⟨strL "image-1", strL "image", 5, 5⟩ : PElem).id) :=
  ⟨by decide, (matcher_precedence _ _).1 (by decide)⟩

/-! ## Generic leftmost string replacement

`splitFirst pat s` is the leftmost split `s = a ++ pat ++ b` (for nonempty
`pat`); it models both JS `String.replace` with a plain-string pattern
(first occurrence only) and, iterated, the `g`-flagged regex replacements
of the source.  When the **replacement** is a plain string (not a
callback), ECMA-262 `GetSubstitution` additionally rewrites the patterns
`$$`, `$&`, `` $` `` and `$'` inside it; with a string search there are no
capture groups, so `$n` and `$<…>` pass through literally.
`getSubstitution` models this; `replaceFirstStr` applies it. -/

/-- The apostrophe character (`Char.ofNat 39`). -/
def aposChar : Char := Char.ofNat 39

/-- The backquote character (`Char.ofNat 96`). -/
def backquoteChar : Char := Char.ofNat 96

/-- Leftmost occurrence split: `some (a, b)` with `s = a ++ pat ++ b`. -/
def splitFirst (pat : List Char) : List Char → Option (List Char × List Char)
  | [] => none
  | c :: rest =>
    if pat.isPrefixOf (c :: rest) then some ([], (c :: rest).drop pat.length)
    else
      match splitFirst pat rest with
      | none => none
      | some (a, b) => some (c :: a, b)

/-- ECMA-262 `GetSubstitution` for a string-valued replacement with a
string search (no capture groups): `$$` yields `$`, `$&` the matched
string, `` $` `` the part of the subject before the match, `$'` the part
after it; any other `$` (including a trailing one, `$n`, `$<`) is
literal. -/
def getSubstitution (matched pre suf : List Char) : List Char → List Char
  | [] => []
  | [c] => [c]
  | c :: d :: rest =>
    if c = '$' then
      if d = '$' then '$' :: getSubstitution matched pre suf rest
      else if d = '&' then matched ++ getSubstitution matched pre suf rest
      else if d = backquoteChar then pre ++ getSubstitution matched pre suf rest
      else if d = aposChar then suf ++ getSubstitution matched pre suf rest
      else '$' :: getSubstitution matched pre suf (d :: rest)
    else c :: getSubstitution matched pre suf (d :: rest)

/-- JS `String.replace` with a plain-string pattern **and** a plain-string
replacement: first occurrence only, the replacement run through
`GetSubstitution`. -/
def replaceFirstStr (pat repl s : List Char) : List Char :=
  match splitFirst pat s with
  | none => s
  | some (a, b) => a ++ getSubstitution pat a b repl ++ b

/-- Iterated leftmost replacement (JS `replace` with a `g`-flagged literal
pattern); the fuel `s.length + 1` always suffices for nonempty patterns.
The replacement strings passed to it in this development (the XML entity
names of `xmlEscape`/`xmlUnescape`) contain no `$`, on which
`GetSubstitution` is the identity, so it is spelled verbatim here. -/
def replaceAllRun (pat repl : List Char) : ℕ → List Char → List Char
  | 0, s => s
  | fuel + 1, s =>
    match splitFirst pat s with
    | none => s
    | some (a, b) => a ++ repl ++ replaceAllRun pat repl fuel b

/-- JS `String.replace(/pat/g, repl)` for a literal pattern. -/
def replaceAll (pat repl s : List Char) : List Char :=
  replaceAllRun pat repl (s.length + 1) s

theorem isPrefixOf_exists_append :
    ∀ (p s : List Char), p.isPrefixOf s = true → ∃ t, p ++ t = s := by
  intro p
  induction p with
  | nil => intro s _; exact ⟨s, rfl⟩
  | cons c cs ih =>
    intro s h
    cases s with
    | nil => exact absurd h (by simp [List.isPrefixOf])
    | cons d ds =>
      simp only [List.isPrefixOf, Bool.and_eq_true, beq_iff_eq] at h
      obtain ⟨t, ht⟩ := ih ds h.2
      exact ⟨t, by rw [h.1, List.cons_append, ht]⟩

theorem splitFirst_append (pat : List Char) :
    ∀ s a b, splitFirst pat s = some (a, b) → s = a ++ pat ++ b := by
  intro s
  induction s with
  | nil => intro a b h; exact absurd h (by simp [splitFirst])
  | cons c rest ih =>
    intro a b h
    unfold splitFirst at h
    by_cases hp : pat.isPrefixOf (c :: rest)
    · rw [if_pos hp] at h
      obtain ⟨t, ht⟩ := isPrefixOf_exists_append pat (c :: rest) hp
      rw [← ht, List.drop_left] at h
      simp only [Option.some.injEq, Prod.mk.injEq] at h
      obtain ⟨ha, hb⟩ := h
      rw [← ht, ← ha, ← hb]
      simp
    · rw [if_neg hp] at h
      cases hrec : splitFirst pat rest with
      | none => rw [hrec] at h; exact absurd h (by simp)
      | some ab =>
        obtain ⟨a', b'⟩ := ab
        rw [hrec] at h
        simp only [Option.some.injEq, Prod.mk.injEq] at h
        obtain ⟨ha, hb⟩ := h
        have := ih a' b' hrec
        rw [← ha, ← hb, this]
        simp

/-! ## The text patcher (`replaceTextInXml`, `server.js` lines 1686–1782)

Guard first: `if (!oldText || !newText || oldText === newText) return
slideXml`.  Then, in order: a `g`-flagged regex replacement of
`(<a:t[^>]*>)old(</a:t>)` (the old text is regex-escaped, so it is matched
literally — the escaping is therefore a no-op in this model); the same with
XML-entity-escaped old/new text; if the string is still unchanged and the
old text is multi-line, a per-line replacement; finally an xml2js
structural pass that only fires when everything above left the string
unchanged and that only rewrites text nodes whose decoded content equals
the old text — that residual tree-level pass is modelled as the identity
at the string level. -/

/-- `xmlEscape` of the source: five sequential global replacements. -/
def xmlEscape (s : List Char) : List Char :=
  replaceAll [aposChar] (strL "&apos;")
    (replaceAll (strL "\"") (strL "&quot;")
      (replaceAll (strL ">") (strL "&gt;")
        (replaceAll (strL "<") (strL "&lt;")
          (replaceAll (strL "&") (strL "&amp;") s))))

/-- `xmlUnescape` of the source (declared there, unused by the flow). -/
def xmlUnescape (s : List Char) : List Char :=
  replaceAll (strL "&apos;") [aposChar]
    (replaceAll (strL "&quot;") (strL "\"")
      (replaceAll (strL "&gt;") (strL ">")
        (replaceAll (strL "&lt;") (strL "<")
          (replaceAll (strL "&amp;") (strL "&") s))))

/-- One scan of the `g`-flagged regex `(<a:t[^>]*>)old(</a:t>)`: at each
position, try to match the literal `<a:t`, a maximal run of non-`>`
characters, `>`, the old text, `</a:t>`; on a hit emit the wrapper around
the new text and continue after the match, otherwise advance one
character. -/
def repTagRun (old new : List Char) : ℕ → List Char → List Char
  | 0, s => s
  | _ + 1, [] => []
  | fuel + 1, c :: rest =>
    if (strL "<a:t").isPrefixOf (c :: rest) then
      let after := (c :: rest).drop 4
      let attrs := after.takeWhile (fun ch => ch ≠ '>')
      match after.drop attrs.length with
      | '>' :: rest2 =>
        if old.isPrefixOf rest2 &&
            (strL "</a:t>").isPrefixOf (rest2.drop old.length) then
          strL "<a:t" ++ attrs ++ '>' ::
            (new ++ strL "</a:t>" ++
              repTagRun old new fuel ((rest2.drop old.length).drop 6))
        else c :: repTagRun old new fuel rest
      | _ => c :: repTagRun old new fuel rest
    else c :: repTagRun old new fuel rest

/-- Global replacement of `<a:t …>old</a:t>` text runs. -/
def repTag (old new s : List Char) : List Char :=
  repTagRun old new (s.length + 1) s

/-- The multi-line fallback: split both texts on newlines and replace the
common-index lines pairwise (skipping empty or unchanged lines). -/
def multilinePass (old new r : List Char) : List Char :=
  ((old.splitOn '\n').zip (new.splitOn '\n')).foldl
    (fun acc p =>
      if p.1 ≠ [] ∧ p.2 ≠ [] ∧ p.1 ≠ p.2 then repTag p.1 p.2 acc else acc) r

/-- `replaceTextInXml` (`server.js` lines 1686–1782). -/
def replaceTextInXml (slideXml oldText newText : List Char) : List Char :=
  if oldText = [] ∨ newText = [] ∨ oldText = newText then slideXml
  else
    let r1 := repTag oldText newText slideXml
    let r2 := repTag (xmlEscape oldText) (xmlEscape newText) r1
    if r2 = slideXml ∧ oldText.contains '\n' then multilinePass oldText newText r2
    else r2

/-- C5: the text patcher is a no-op when the old and new texts coincide or
either is empty — the input XML is returned unchanged. -/
theorem replaceTextInXml_noop (xml oldText newText : List Char)
    (h : oldText = newText ∨ oldText = [] ∨ newText = []) :
    replaceTextInXml xml oldText newText = xml := by
  unfold replaceTextInXml
  rcases h with h | h | h
  · rw [if_pos (Or.inr (Or.inr h))]
  · rw [if_pos (Or.inl h)]
  · rw [if_pos (Or.inr (Or.inl h))]

/-- Witness for C5: replacing `"hi"` by `"hi"` leaves a slide fragment
untouched. -/
theorem replaceTextInXml_noop_witness :
    (strL "hi" = strL "hi" ∨ strL "hi" = [] ∨ strL "hi" = []) ∧
    replaceTextInXml (strL "<p:sp><a:t>hi</a:t></p:sp>") (strL "hi") (strL "hi") =
      strL "<p:sp><a:t>hi</a:t></p:sp>" :=
  ⟨Or.inl rfl, replaceTextInXml_noop _ _ _ (Or.inl rfl)⟩

/-! ## Slide file discovery (`parsePptx`, `server.js` lines 74–81, 169–179)

The archive's entry names are filtered with
`name.startsWith('ppt/slides/slide') && name.endsWith('.xml')`, sorted by
the number extracted with the regex `/slide(\d+)\.xml/` (numeric
comparator `numA - numB`, stable), and each slide's `id` is the number
parsed from its own file name. -/

/-- The discovery filter. -/
def slideFileFilter (name : List Char) : Bool :=
  (strL "ppt/slides/slide").isPrefixOf name && (strL ".xml").isSuffixOf name

/-- Match of the regex `slide(\d+)\.xml` anchored at the start of `s`:
the literal `slide`, a maximal nonempty digit run, the literal `.xml`. -/
def matchSlideNum (s : List Char) : Option ℕ :=
  if (strL "slide").isPrefixOf s then
    let rest := s.drop 5
    let ds := rest.takeWhile Char.isDigit
    if ds ≠ [] ∧ (strL ".xml").isPrefixOf (rest.drop ds.length) then
      some (natOfDigits ds)
    else none
  else none

/-- First match of `slide(\d+)\.xml` anywhere in the name (the regex scans
left to right).  `none` models the `TypeError` a JS `null.match` access
would raise; the discovery theorem assumes well-formed names. -/
def extractSlideNum : List Char → Option ℕ
  | [] => none
  | c :: rest =>
    match matchSlideNum (c :: rest) with
    | some n => some n
    | none => extractSlideNum rest

/-- The numeric sort key (`parseInt(a.match(/slide(\d+)\.xml/)[1])`). -/
def slideKey (name : List Char) : ℕ := (extractSlideNum name).getD 0

/-- Discovery: filter, then stable sort by the numeric key. -/
def discoverSlides (paths : List (List Char)) : List (List Char) :=
  List.insertionSort (fun a b => slideKey a ≤ slideKey b) (paths.filter slideFileFilter)

/-- C6: discovery enumerates exactly the archive paths accepted by the
slide-name filter, orders them by the numerically extracted `N` (so
`slide10.xml` sorts after `slide9.xml`), and the number reported for each
slide is the `N` parsed from its own file name. -/
theorem slide_discovery_spec (paths : List (List Char))
    (h : ∀ p ∈ paths.filter slideFileFilter, (extractSlideNum p).isSome) :
    (discoverSlides paths).Perm (paths.filter slideFileFilter) ∧
    (discoverSlides paths).Sorted (fun a b => slideKey a ≤ slideKey b) ∧
    ∀ p ∈ discoverSlides paths, extractSlideNum p = some (slideKey p) := by
  refine ⟨List.perm_insertionSort _ _, ?_, ?_⟩
  · letI : IsTotal (List Char) (fun a b => slideKey a ≤ slideKey b) :=
      ⟨fun a b => le_total _ _⟩
    letI : IsTrans (List Char) (fun a b => slideKey a ≤ slideKey b) :=
      ⟨fun a b c hab hbc => le_trans hab hbc⟩
    exact List.sorted_insertionSort _ _
  · intro p hp
    have hmem : p ∈ paths.filter slideFileFilter :=
      (List.perm_insertionSort _ _).mem_iff.mp hp
    have hsome := h p hmem
    cases he : extractSlideNum p with
    | none => rw [he] at hsome; exact absurd hsome (by simp)
    | some n => simp [slideKey, he]

/-- Witness for C6: an archive with `slide10.xml`, `slide9.xml` and a
non-slide entry. -/
theorem slide_discovery_spec_witness :
    (∀ p ∈ [strL "ppt/slides/slide10.xml", strL "ppt/slides/slide9.xml",
            strL "ppt/presentation.xml"].filter slideFileFilter,
      (extractSlideNum p).isSome) ∧
    ((discoverSlides [strL "ppt/slides/slide10.xml", strL "ppt/slides/slide9.xml",
        strL "ppt/presentation.xml"]).Perm
      ([strL "ppt/slides/slide10.xml", strL "ppt/slides/slide9.xml",
        strL "ppt/presentation.xml"].filter slideFileFilter) ∧
    (discoverSlides [strL "ppt/slides/slide10.xml", strL "ppt/slides/slide9.xml",
        strL "ppt/presentation.xml"]).Sorted (fun a b => slideKey a ≤ slideKey b) ∧
    ∀ p ∈ discoverSlides [strL "ppt/slides/slide10.xml", strL "ppt/slides/slide9.xml",
        strL "ppt/presentation.xml"],
      extractSlideNum p = some (slideKey p)) :=
  ⟨by decide, slide_discovery_spec _ (by decide)⟩

/-! ## Relationship-table merging (`parsePptx`, `server.js` lines 100–167)

`let relationships = {...globalRelationships, ...slideLayoutRelationships}`
followed by `relationships[rel.$.Id] = rel.$.Target` for each slide-local
relationship.  Layout entries are keyed `layout${n}_${Id}`; global and
slide-local entries are keyed by their plain `Id`.  JS object spread and
assignment make later writes win. -/

/-- A JS object used as a string dictionary. -/
def JsObj : Type := List Char → Option (List Char)

/-- Property assignment `m[k] = v`. -/
def objSet (m : JsObj) (k v : List Char) : JsObj :=
  fun q => if q = k then some v else m q

/-- Insert a pair list in order (object spread / `forEach` assignment). -/
def objExtend (m : JsObj) (pairs : List (List Char × List Char)) : JsObj :=
  pairs.foldl (fun acc p => objSet acc p.1 p.2) m

/-- The empty object. -/
def emptyObj : JsObj := fun _ => none

/-- The slide-layout relationships, keyed `layout${n}_${Id}`. -/
def layoutPrefixedRels
    (layouts : List (ℕ × List (List Char × List Char))) :
    List (List Char × List Char) :=
  layouts.flatMap fun ln =>
    ln.2.map fun p => (strL "layout" ++ natDigits ln.1 ++ strL "_" ++ p.1, p.2)

/-- The merged per-slide relationship table. -/
def mergedRels (global : List (List Char × List Char))
    (layouts : List (ℕ × List (List Char × List Char)))
    (slideLocal : List (List Char × List Char)) : JsObj :=
  objExtend (objExtend (objExtend emptyObj global) (layoutPrefixedRels layouts))
    slideLocal

/-- Last binding of a key in a pair list (later assignments win). -/
def lookupLast (pairs : List (List Char × List Char)) (k : List Char) :
    Option (List Char) :=
  pairs.foldl (fun acc p => if p.1 = k then some p.2 else acc) none

theorem lookupFold_init (k : List Char) :
    ∀ (pairs : List (List Char × List Char)) (acc : Option (List Char)),
      pairs.foldl (fun a p => if p.1 = k then some p.2 else a) acc =
        match lookupLast pairs k with
        | some v => some v
        | none => acc := by
  intro pairs
  induction pairs with
  | nil => intro acc; simp [lookupLast]
  | cons q rest ih =>
    intro acc
    unfold lookupLast
    rw [List.foldl_cons, List.foldl_cons, ih, ih]
    cases hr : rest.foldl (fun a p => if p.1 = k then some p.2 else a) none with
    | some v => simp [lookupLast, hr]
    | none =>
      simp only [lookupLast, hr]
      by_cases hq : q.1 = k
      · rw [if_pos hq, if_pos hq]
      · rw [if_neg hq, if_neg hq]

theorem objExtend_apply (k : List Char) :
    ∀ (pairs : List (List Char × List Char)) (m : JsObj),
      objExtend m pairs k =
        match lookupLast pairs k with
        | some v => some v
        | none => m k := by
  intro pairs
  induction pairs with
  | nil => intro m; simp [objExtend, lookupLast]
  | cons p rest ih =>
    intro m
    unfold objExtend
    rw [List.foldl_cons]
    have step : objExtend (objSet m p.1 p.2) rest k =
        match lookupLast rest k with
        | some v => some v
        | none => objSet m p.1 p.2 k := ih (objSet m p.1 p.2)
    rw [show (rest.foldl (fun acc q => objSet acc q.1 q.2) (objSet m p.1 p.2)) =
        objExtend (objSet m p.1 p.2) rest from rfl, step]
    have hcons : lookupLast (p :: rest) k =
        match lookupLast rest k with
        | some v => some v
        | none => if p.1 = k then some p.2 else none := by
      unfold lookupLast
      rw [List.foldl_cons]
      exact lookupFold_init k rest _
    rw [hcons]
    cases lookupLast rest k with
    | some v => rfl
    | none =>
      simp only [objSet]
      by_cases hp : p.1 = k
      · simp [hp]
      · rw [if_neg fun hk : k = p.1 => hp hk.symm, if_neg hp]

theorem isPrefixOf_append_self :
    ∀ (p t : List Char), p.isPrefixOf (p ++ t) = true := by
  intro p
  induction p with
  | nil => intro t; simp [List.isPrefixOf]
  | cons c cs ih => intro t; simp [List.isPrefixOf, ih]

theorem lookupLast_eq_none_of_all :
    ∀ (pairs : List (List Char × List Char)) (k : List Char),
      (∀ p ∈ pairs, p.1 ≠ k) → lookupLast pairs k = none := by
  intro pairs
  induction pairs with
  | nil => intro k _; rfl
  | cons p rest ih =>
    intro k hall
    unfold lookupLast
    rw [List.foldl_cons, if_neg (hall p (by simp))]
    have hres := ih k fun q hq => hall q (by simp [hq])
    unfold lookupLast at hres
    exact hres

/-- A key that does not begin with `layout` is never bound by the
layout-prefixed entries. -/
theorem lookupLast_layout_none
    (layouts : List (ℕ × List (List Char × List Char))) (id : List Char)
    (hid : ¬ (strL "layout").isPrefixOf id = true) :
    lookupLast (layoutPrefixedRels layouts) id = none := by
  apply lookupLast_eq_none_of_all
  intro p hp
  unfold layoutPrefixedRels at hp
  rw [List.mem_flatMap] at hp
  obtain ⟨ln, _, hp⟩ := hp
  rw [List.mem_map] at hp
  obtain ⟨q, _, rfl⟩ := hp
  intro hkey
  apply hid
  rw [← hkey]
  have hassoc : strL "layout" ++ (natDigits ln.1 ++ (strL "_" ++ q.1)) =
      strL "layout" ++ natDigits ln.1 ++ strL "_" ++ q.1 := by simp
  rw [← hassoc]
  exact isPrefixOf_append_self _ _

/-- C7: in the merged per-slide relationship table, a plain relationship id
resolves to the slide-local binding when one exists, and otherwise to the
presentation-global binding; the slide-layout source never shadows either
(its entries live under `layout${n}_`-prefixed keys). -/
theorem rels_merge_priority (global : List (List Char × List Char))
    (layouts : List (ℕ × List (List Char × List Char)))
    (slideLocal : List (List Char × List Char)) (id : List Char)
    (hid : ¬ (strL "layout").isPrefixOf id = true) :
    (∀ v, lookupLast slideLocal id = some v →
      mergedRels global layouts slideLocal id = some v) ∧
    (lookupLast slideLocal id = none →
      mergedRels global layouts slideLocal id = lookupLast global id) := by
  have hmain : mergedRels global layouts slideLocal id =
      match lookupLast slideLocal id with
      | some v => some v
      | none => lookupLast global id := by
    unfold mergedRels
    rw [objExtend_apply]
    cases lookupLast slideLocal id with
    | some v => rfl
    | none =>
      rw [objExtend_apply, lookupLast_layout_none layouts id hid, objExtend_apply]
      cases lookupLast global id with
      | some v => rfl
      | none => rfl
  constructor
  · intro v hv
    rw [hmain, hv]
  · intro hnone
    rw [hmain, hnone]

/-- Witness for C7: `rId7` bound in all three sources resolves to the
slide-local target; with no local binding it resolves to the global one. -/
theorem rels_merge_priority_witness :
    (¬ (strL "layout").isPrefixOf (strL "rId7") = true) ∧
    ((∀ v, lookupLast [(strL "rId7", strL "../media/local.png")] (strL "rId7") = some v →
      mergedRels [(strL "rId7", strL "../media/global.png")]
        [(1, [(strL "rId7", strL "../media/layout.png")])]
        [(strL "rId7", strL "../media/local.png")] (strL "rId7") = some v) ∧
    (lookupLast [(strL "rId7", strL "../media/local.png")] (strL "rId7") = none →
      mergedRels [(strL "rId7", strL "../media/global.png")]
        [(1, [(strL "rId7", strL "../media/layout.png")])]
        [(strL "rId7", strL "../media/local.png")] (strL "rId7") =
        lookupLast [(strL "rId7", strL "../media/global.png")] (strL "rId7"))) :=
  ⟨by decide, rels_merge_priority _ _ _ _ (by decide)⟩

/-! ## The table generator (`tableGenerator.js`)

`insertTableIntoSlide(slideXml, tableData, element)` synthesizes a complete
`<p:graphicFrame>` subtree from a 2-D grid of cell strings (defaulting to a
5×5 `"Cell i-j"` grid when the grid is missing, not an array, or empty) and
splices it in front of the first `</p:spTree>`; `replaceTableInXml`
rewrites every existing `<a:tbl>…</a:tbl>` block (lazy `g`-flagged regex)
with a freshly generated table.  Cell text is interpolated as
`<a:t>${cell || ''}</a:t>` — for a string the JS expression `cell || ''`
is the cell itself (an empty cell yields `''`, the same characters), so no
XML escaping of any kind is applied.  The grids are modelled as
`Option (List (List (List Char)))`, `none` standing for a missing or
non-array value.  The nondeterministic `Date.now()` frame id is a
parameter. -/

/-- `v || d` on a JS number that may be `undefined`: `undefined` and `0`
are falsy. -/
def jsOrQ (v : Option ℚ) (d : ℚ) : ℚ :=
  match v with
  | none => d
  | some q => if q = 0 then d else q

/-- The geometry fields of the element passed to `insertTableIntoSlide`. -/
structure TableGeo where
  x : Option ℚ
  y : Option ℚ
  width : Option ℚ
  height : Option ℚ

/-- The fallback grid: 5×5 with cell text `Cell ${i+1}-${j+1}`. -/
def defaultGrid : List (List (List Char)) :=
  (List.range 5).map fun i =>
    (List.range 5).map fun j =>
      strL "Cell " ++ natDigits (i + 1) ++ strL "-" ++ natDigits (j + 1)

/-- `.map((row, rowIndex) => …)`: pair each entry with its index. -/
def rowsWithIndex : ℕ → List (List (List Char)) → List (ℕ × List (List Char))
  | _, [] => []
  | i, r :: rs => (i, r) :: rowsWithIndex (i + 1) rs

/-- Banded row shading: `rowIndex % 2 === 0 ? 'FFFFFF' : 'FF0000'`. -/
def rowBg (ri : ℕ) : List Char :=
  if ri % 2 = 0 then strL "FFFFFF" else strL "FF0000"

/-- `Math.round(w / cols)` — one column's share of the total width. -/
def colWOf (w : ℤ) (cols : ℕ) : ℤ := jsMathRound ((w : ℚ) / (cols : ℚ))

/-- `Math.round(h / rows)` — one row's share of the total height. -/
def rowHOf (h : ℤ) (rows : ℕ) : ℤ := jsMathRound ((h : ℚ) / (rows : ℚ))

/-- `<a:gridCol w="…"/>`. -/
def gridColXml (w : ℤ) : List Char :=
  strL "<a:gridCol w=\"" ++ intToStr w ++ strL "\"/>"

/-- Template text of one `insertTableIntoSlide` cell up to its `<a:t>`. -/
def tableCellPre : List Char :=
  strL "\n              <a:tc>\n                <a:txBody>\n                  <a:bodyPr/>\n                  <a:lstStyle/>\n                  <a:p>\n                    <a:r>\n                      "

/-- Template text between the cell's `</a:t>` and its shading color. -/
def tableCellMid : List Char :=
  strL "\n                    </a:r>\n                  </a:p>\n                </a:txBody>\n                <a:tcPr>\n                  <a:solidFill>\n                    <a:srgbClr val=\""

/-- Template text closing one cell. -/
def tableCellSuf : List Char :=
  strL "\"/>\n                  </a:solidFill>\n                </a:tcPr>\n              </a:tc>"

/-- One `insertTableIntoSlide` cell: the cell string is emitted verbatim
between `<a:t>` and `</a:t>`. -/
def tableCellXml (bg cell : List Char) : List Char :=
  tableCellPre ++ (strL "<a:t>" ++ cell ++ strL "</a:t>") ++
    tableCellMid ++ bg ++ tableCellSuf

/-- One `insertTableIntoSlide` row (`<a:tr h="…">` … `</a:tr>`). -/
def tableRowXml (rowH : ℤ) (ri : ℕ) (row : List (List Char)) : List Char :=
  strL "\n            <a:tr h=\"" ++ intToStr rowH ++ strL "\">\n              " ++
    (row.map (tableCellXml (rowBg ri))).flatten ++ strL "\n            </a:tr>"

/-- The row fragments of the generated table, in order. -/
def tableRowsFragments (h : ℤ) (g : List (List (List Char))) :
    List (List Char) :=
  (rowsWithIndex 0 g).map fun p => tableRowXml (rowHOf h g.length) p.1 p.2

/-- Opening of the graphic frame up to the `Date.now()` id. -/
def tblFrameSeg1 : List Char :=
  strL "\n    <p:graphicFrame>\n      <p:nvGraphicFramePr>\n        <p:cNvPr id=\""

/-- From the frame id to the `a:off` `x` attribute. -/
def tblFrameSeg2 : List Char :=
  strL "\" name=\"Table\"/>\n        <p:cNvGraphicFramePr>\n          <a:graphicFrameLocks noGrp=\"1\"/>\n        </p:cNvGraphicFramePr>\n        <p:nvPr/>\n      </p:nvGraphicFramePr>\n      <p:xfrm>\n        <a:off x=\""

/-- Between the `x` and `y` offset attributes. -/
def tblFrameSeg3 : List Char := strL "\" y=\""

/-- Between the offset and the `cx` extent attribute. -/
def tblFrameSeg4 : List Char := strL "\"/>\n        <a:ext cx=\""

/-- Between the `cx` and `cy` extent attributes. -/
def tblFrameSeg5 : List Char := strL "\" cy=\""

/-- From the extent through `tblPr` to the grid-column list. -/
def tblFrameSeg6 : List Char :=
  strL "\"/>\n      </p:xfrm>\n      <a:graphic>\n        <a:graphicData uri=\"http://schemas.openxmlformats.org/drawingml/2006/table\">\n          <a:tbl>\n            <a:tblPr firstRow=\"1\" bandRow=\"1\">\n              <a:tableStyleId>\x7b5C22544A-7EE6-4342-B048-85BDC9FD1C3A\x7d</a:tableStyleId>\n            </a:tblPr>\n            <a:tblGrid>\n              "

/-- Between the grid columns and the rows. -/
def tblFrameSeg7 : List Char :=
  strL "\n            </a:tblGrid>\n            "

/-- Closing of the graphic frame. -/
def tblFrameSeg8 : List Char :=
  strL "\n          </a:tbl>\n        </a:graphicData>\n      </a:graphic>\n    </p:graphicFrame>"

/-- The complete `<p:graphicFrame>` XML `insertTableIntoSlide` builds for
grid `g` at EMU geometry `(x, y, w, h)` (grid columns map over the first
row, as in `tableData[0].map(...)`). -/
def tableFrameXml (frameId : ℕ) (x y w h : ℤ)
    (g : List (List (List Char))) : List Char :=
  tblFrameSeg1 ++ natDigits frameId ++ tblFrameSeg2 ++
    intToStr x ++ tblFrameSeg3 ++ intToStr y ++ tblFrameSeg4 ++
    intToStr w ++ tblFrameSeg5 ++ intToStr h ++ tblFrameSeg6 ++
    ((g.headD []).map fun _ => gridColXml (colWOf w (g.headD []).length)).flatten ++
    tblFrameSeg7 ++ (tableRowsFragments h g).flatten ++ tblFrameSeg8

/-- The grid actually used: the argument, or the 5×5 default when it is
missing, not an array, or empty. -/
def gridOrDefault (td : Option (List (List (List Char)))) :
    List (List (List Char)) :=
  match td with
  | none => defaultGrid
  | some [] => defaultGrid
  | some rows => rows

/-- `insertTableIntoSlide` (`tableGenerator.js` lines 2–66): build the
frame and splice it before the first `</p:spTree>` (JS string-pattern
`replace` touches only the first occurrence). -/
def insertTableIntoSlide (slideXml : List Char)
    (tableData : Option (List (List (List Char)))) (el : TableGeo)
    (frameId : ℕ) : List Char :=
  let g := gridOrDefault tableData
  let x := jsMathRound (jsOrQ el.x 1 * 914400)
  let y := jsMathRound (jsOrQ el.y 1 * 914400)
  let w := jsMathRound (jsOrQ el.width 6 * 914400)
  let h := jsMathRound (jsOrQ el.height 3 * 914400)
  replaceFirstStr (strL "</p:spTree>")
    (tableFrameXml frameId x y w h g ++ strL "</p:spTree>") slideXml

/-- Template text of one `replaceTableInXml` cell up to its `<a:t>`. -/
def replCellPre : List Char :=
  strL "\n          <a:tc>\n            <a:txBody>\n              <a:bodyPr/>\n              <a:lstStyle/>\n              <a:p>\n                <a:r>\n                  "

/-- Between the replacement cell's `</a:t>` and its shading color. -/
def replCellMid : List Char :=
  strL "\n                </a:r>\n              </a:p>\n            </a:txBody>\n            <a:tcPr>\n              <a:solidFill>\n                <a:srgbClr val=\""

/-- Closing one replacement cell. -/
def replCellSuf : List Char :=
  strL "\"/>\n              </a:solidFill>\n            </a:tcPr>\n          </a:tc>"

/-- One `replaceTableInXml` cell (verbatim cell text, as above). -/
def replCellXml (bg cell : List Char) : List Char :=
  replCellPre ++ (strL "<a:t>" ++ cell ++ strL "</a:t>") ++
    replCellMid ++ bg ++ replCellSuf

/-- One `replaceTableInXml` row (fixed height `370840`). -/
def replRowXml (ri : ℕ) (row : List (List Char)) : List Char :=
  strL "\n        <a:tr h=\"" ++ intToStr 370840 ++ strL "\">\n          " ++
    (row.map (replCellXml (rowBg ri))).flatten ++ strL "\n        </a:tr>"

/-- Opening of the replacement `<a:tbl>` through the grid columns. -/
def replTblSeg1 : List Char :=
  strL "<a:tbl>\n      <a:tblPr firstRow=\"1\" bandRow=\"1\">\n        <a:tableStyleId>\x7b5C22544A-7EE6-4342-B048-85BDC9FD1C3A\x7d</a:tableStyleId>\n      </a:tblPr>\n      <a:tblGrid>\n        "

/-- Between the replacement grid columns and the rows. -/
def replTblSeg2 : List Char := strL "\n      </a:tblGrid>\n      "

/-- Closing the replacement `<a:tbl>`. -/
def replTblSeg3 : List Char := strL "\n    </a:tbl>"

/-- The replacement table XML (fixed column width `1200000`). -/
def replTableXml (g : List (List (List Char))) : List Char :=
  replTblSeg1 ++ ((g.headD []).map fun _ => gridColXml 1200000).flatten ++
    replTblSeg2 ++
    ((rowsWithIndex 0 g).map fun p => replRowXml p.1 p.2).flatten ++ replTblSeg3

/-- One scan step of the `g`-flagged lazy regex
`/<a:tbl[\s\S]*?<\/a:tbl>/g`: leftmost `<a:tbl`, shortest completion to
the next `</a:tbl>`, replace, continue after the match. -/
def replaceTablesRun (repl : List Char) : ℕ → List Char → List Char
  | 0, s => s
  | fuel + 1, s =>
    match splitFirst (strL "<a:tbl") s with
    | none => s
    | some (a, rest) =>
      match splitFirst (strL "</a:tbl>") rest with
      | none => s
      | some (_, d) => a ++ repl ++ replaceTablesRun repl fuel d

/-- Global replacement of every table block. -/
def replaceTables (repl s : List Char) : List Char :=
  replaceTablesRun repl (s.length + 1) s

/-- `replaceTableInXml` (`tableGenerator.js` lines 69–116). -/
def replaceTableInXml (slideXml : List Char)
    (newTableData : Option (List (List (List Char)))) : List Char :=
  replaceTables (replTableXml (gridOrDefault newTableData)) slideXml

/-! ### Helper lemmas for the table generator -/

theorem jsMathRound_half_err (q : ℚ) : |(jsMathRound q : ℚ) - q| ≤ 1/2 := by
  unfold jsMathRound
  have h1 := Int.floor_le (q + 1/2)
  have h2 := Int.lt_floor_add_one (q + 1/2)
  rw [abs_le]
  constructor <;> linarith

theorem flatten_map_infix {X : Type} (f : X → List Char) :
    ∀ (l : List X) (x : X), x ∈ l →
      ∃ p q, (l.map f).flatten = p ++ f x ++ q := by
  intro l
  induction l with
  | nil => intro x hx; exact absurd hx (by simp)
  | cons hd tl ih =>
    intro x hx
    rw [List.mem_cons] at hx
    rcases hx with rfl | hx
    · exact ⟨[], (tl.map f).flatten, by simp⟩
    · obtain ⟨p, q, hpq⟩ := ih x hx
      exact ⟨f hd ++ p, q, by simp [hpq]⟩

theorem infix_chain {A B C : List Char}
    (h1 : ∃ p q, A = p ++ B ++ q) (h2 : ∃ p q, B = p ++ C ++ q) :
    ∃ p q, A = p ++ C ++ q := by
  obtain ⟨p, q, rfl⟩ := h1
  obtain ⟨p', q', rfl⟩ := h2
  exact ⟨p ++ p', q' ++ q, by simp⟩

theorem rowsWithIndex_mem :
    ∀ (g : List (List (List Char))) (i r : ℕ) (row : List (List Char)),
      g[r]? = some row → (i + r, row) ∈ rowsWithIndex i g := by
  intro g
  induction g with
  | nil => intro i r row h; simp at h
  | cons hd tl ih =>
    intro i r row h
    cases r with
    | zero =>
      simp only [List.getElem?_cons_zero, Option.some.injEq] at h
      subst h
      simp [rowsWithIndex]
    | succ r' =>
      rw [List.getElem?_cons_succ] at h
      have hmem := ih (i + 1) r' row h
      have heq : i + (r' + 1) = (i + 1) + r' := by omega
      rw [heq]
      unfold rowsWithIndex
      exact List.mem_cons_of_mem _ hmem

theorem rowsWithIndex_mem_snd :
    ∀ (g : List (List (List Char))) (i : ℕ) (p : ℕ × List (List Char)),
      p ∈ rowsWithIndex i g → p.2 ∈ g := by
  intro g
  induction g with
  | nil => intro i p hp; simp [rowsWithIndex] at hp
  | cons hd tl ih =>
    intro i p hp
    unfold rowsWithIndex at hp
    rw [List.mem_cons] at hp
    rcases hp with rfl | hp
    · simp
    · exact List.mem_cons_of_mem _ (ih (i + 1) p hp)

/-! ### Strings without `$` and the substitution patterns

`GetSubstitution` is the identity on a replacement string that contains no
`$` character; the generated table XML is such a string exactly when no
grid cell contains a `$`. -/

/-- No character of the string is `$`. -/
def noDollar (s : List Char) : Bool := s.all fun c => c != '$'

theorem noDollar_append_intro {a b : List Char}
    (ha : noDollar a = true) (hb : noDollar b = true) :
    noDollar (a ++ b) = true := by
  rw [noDollar, List.all_append]
  rw [noDollar] at ha hb
  rw [ha, hb]
  rfl

theorem noDollar_flatten :
    ∀ (ls : List (List Char)), (∀ l ∈ ls, noDollar l = true) →
      noDollar ls.flatten = true := by
  intro ls
  induction ls with
  | nil => intro _; rfl
  | cons hd tl ih =>
    intro h
    rw [List.flatten_cons]
    exact noDollar_append_intro (h hd (by simp)) (ih fun l hl => h l (by simp [hl]))

theorem noDollar_natDigits (n : ℕ) : noDollar (natDigits n) = true := by
  have hall := (natDigits_spec n).2
  rw [noDollar, List.all_eq_true]
  intro c hc
  have hcd : c.isDigit = true := List.all_eq_true.mp hall c hc
  simp only [bne_iff_ne, ne_eq]
  intro hcx
  rw [hcx] at hcd
  exact absurd hcd (by decide)

theorem noDollar_intToStr (n : ℤ) : noDollar (intToStr n) = true := by
  unfold intToStr
  split
  · have hdigits := noDollar_natDigits n.natAbs
    rw [noDollar] at hdigits ⊢
    simp only [List.all_cons, Bool.and_eq_true]
    exact ⟨by decide, hdigits⟩
  · exact noDollar_natDigits _

theorem noDollar_rowBg (ri : ℕ) : noDollar (rowBg ri) = true := by
  unfold rowBg
  split <;> decide

/-- `GetSubstitution` leaves a `$`-free replacement untouched. -/
theorem getSubstitution_noDollar (matched pre suf : List Char) :
    ∀ repl, noDollar repl = true →
      getSubstitution matched pre suf repl = repl := by
  intro repl
  induction repl with
  | nil => intro _; rfl
  | cons c rest ih =>
    intro h
    have hc : (c != '$') = true ∧ noDollar rest = true := by
      simpa [noDollar] using h
    have hcne : ¬ c = '$' := by simpa using hc.1
    cases rest with
    | nil => rfl
    | cons d rest2 =>
      simp only [getSubstitution]
      rw [if_neg hcne, ih hc.2]

/-- Completeness of `splitFirst`: a `none` result means the (nonempty)
pattern occurs nowhere in the string. -/
theorem splitFirst_none_no_occurrence (pat : List Char) (hpat : pat ≠ []) :
    ∀ s, splitFirst pat s = none → ∀ a b, s ≠ a ++ pat ++ b := by
  intro s
  induction s with
  | nil =>
    intro _ a b heq
    have hnil : a ++ pat = [] ∧ b = [] := by
      rw [← List.append_eq_nil]
      exact heq.symm
    have := hnil.1
    rw [List.append_eq_nil] at this
    exact hpat this.2
  | cons c rest ih =>
    intro h a b heq
    unfold splitFirst at h
    by_cases hp : pat.isPrefixOf (c :: rest)
    · rw [if_pos hp] at h
      exact absurd h (by simp)
    · rw [if_neg hp] at h
      have hrest : splitFirst pat rest = none := by
        cases hr : splitFirst pat rest with
        | none => rfl
        | some ab =>
          rw [hr] at h
          obtain ⟨a', b'⟩ := ab
          simp at h
      cases a with
      | nil =>
        simp only [List.nil_append] at heq
        apply hp
        rw [heq]
        exact isPrefixOf_append_self pat b
      | cons a0 a' =>
        simp only [List.cons_append] at heq
        injection heq with h1 h2
        exact ih hrest a' b h2

/-- Occurrence test (used to evaluate occurrence-freeness on concrete
strings; logically equivalent to `splitFirst` producing `none`). -/
def hasOccur (pat : List Char) : List Char → Bool
  | [] => false
  | c :: rest => pat.isPrefixOf (c :: rest) || hasOccur pat rest

/-- Completeness of `hasOccur`: a `false` result means the (nonempty)
pattern occurs nowhere in the string. -/
theorem hasOccur_false_no_occurrence (pat : List Char) (hpat : pat ≠ []) :
    ∀ s, hasOccur pat s = false → ∀ a b, s ≠ a ++ pat ++ b := by
  intro s
  induction s with
  | nil =>
    intro _ a b heq
    have hnil : a ++ pat = [] ∧ b = [] := by
      rw [← List.append_eq_nil]
      exact heq.symm
    have := hnil.1
    rw [List.append_eq_nil] at this
    exact hpat this.2
  | cons c rest ih =>
    intro h a b heq
    unfold hasOccur at h
    rw [Bool.or_eq_false_iff] at h
    obtain ⟨h1, h2⟩ := h
    cases a with
    | nil =>
      simp only [List.nil_append] at heq
      rw [heq, isPrefixOf_append_self] at h1
      simp at h1
    | cons a0 a' =>
      simp only [List.cons_append] at heq
      injection heq with hh1 hh2
      exact ih h2 a' b hh2

set_option maxRecDepth 10000 in
set_option maxHeartbeats 1000000 in
/-- The table frame built from a grid of `$`-free cells is itself
`$`-free (segments, digit strings and shading colors contain no `$`). -/
theorem noDollar_tableFrameXml (frameId : ℕ) (x y w h : ℤ)
    (g : List (List (List Char)))
    (hg : ∀ row ∈ g, ∀ cell ∈ row, noDollar cell = true) :
    noDollar (tableFrameXml frameId x y w h g) = true := by
  have hcols : noDollar
      ((g.headD []).map fun _ => gridColXml (colWOf w (g.headD []).length)).flatten =
        true := by
    apply noDollar_flatten
    intro l hl
    rw [List.mem_map] at hl
    obtain ⟨_, _, rfl⟩ := hl
    unfold gridColXml
    repeat' apply noDollar_append_intro
    all_goals first
      | exact noDollar_intToStr _
      | decide
  have hrows : noDollar (tableRowsFragments h g).flatten = true := by
    apply noDollar_flatten
    intro l hl
    unfold tableRowsFragments at hl
    rw [List.mem_map] at hl
    obtain ⟨⟨ri, row⟩, hmem, rfl⟩ := hl
    have hrow : row ∈ g := rowsWithIndex_mem_snd g 0 (ri, row) hmem
    have hcells : noDollar (row.map (tableCellXml (rowBg ri))).flatten = true := by
      apply noDollar_flatten
      intro cl hcl
      rw [List.mem_map] at hcl
      obtain ⟨cell, hcellmem, rfl⟩ := hcl
      unfold tableCellXml
      repeat' apply noDollar_append_intro
      all_goals first
        | exact hg row hrow cell hcellmem
        | exact noDollar_rowBg ri
        | decide
    unfold tableRowXml
    repeat' apply noDollar_append_intro
    all_goals first
      | exact hcells
      | exact noDollar_intToStr _
      | decide
  unfold tableFrameXml
  repeat' apply noDollar_append_intro
  all_goals first
    | exact hcols
    | exact hrows
    | exact noDollar_natDigits _
    | exact noDollar_intToStr _
    | decide

/-- Unfolding of the table injector when the slide has a shape-tree
closing tag: the replacement (frame plus closing tag) goes through
`GetSubstitution` with the closing tag as the matched string. -/
theorem insertTableIntoSlide_eq (slideXml a b : List Char)
    (td : Option (List (List (List Char)))) (el : TableGeo) (frameId : ℕ)
    (hsp : splitFirst (strL "</p:spTree>") slideXml = some (a, b)) :
    insertTableIntoSlide slideXml td el frameId =
      a ++ getSubstitution (strL "</p:spTree>") a b
          (tableFrameXml frameId
            (jsMathRound (jsOrQ el.x 1 * 914400))
            (jsMathRound (jsOrQ el.y 1 * 914400))
            (jsMathRound (jsOrQ el.width 6 * 914400))
            (jsMathRound (jsOrQ el.height 3 * 914400)) (gridOrDefault td) ++
          strL "</p:spTree>") ++ b := by
  unfold insertTableIntoSlide replaceFirstStr
  rw [hsp]

/-- C8: with a missing/non-array (`none`) or empty grid, the table injector
uses the default 5×5 grid whose cell `(r, c)` reads `Cell (r+1)-(c+1)`,
splices exactly the generated graphic frame in front of the first
`</p:spTree>` of the slide, gives every column the equal share
`Math.round(w/cols)` of the total width and every row the equal share
`Math.round(h/rows)` of the total height (both within half an EMU per
part of an exact even division), and alternates the cell shading color by
row parity. -/
theorem insertTable_default_grid (slideXml a b : List Char) (el : TableGeo)
    (frameId : ℕ) (td : Option (List (List (List Char))))
    (htd : td = none ∨ td = some [])
    (hsp : splitFirst (strL "</p:spTree>") slideXml = some (a, b)) :
    slideXml = a ++ strL "</p:spTree>" ++ b ∧
    insertTableIntoSlide slideXml td el frameId =
      a ++ tableFrameXml frameId
          (jsMathRound (jsOrQ el.x 1 * 914400))
          (jsMathRound (jsOrQ el.y 1 * 914400))
          (jsMathRound (jsOrQ el.width 6 * 914400))
          (jsMathRound (jsOrQ el.height 3 * 914400)) defaultGrid ++
        strL "</p:spTree>" ++ b ∧
    defaultGrid.length = 5 ∧
    (∀ r, r < 5 → ∀ c, c < 5 →
      (defaultGrid[r]?.bind fun row => row[c]?) =
        some (strL "Cell " ++ natDigits (r + 1) ++ strL "-" ++ natDigits (c + 1))) ∧
    (∀ row ∈ defaultGrid, row.length = 5) ∧
    (∀ w : ℤ, ((defaultGrid.headD []).map
        fun _ => gridColXml (colWOf w (defaultGrid.headD []).length)) =
      List.replicate 5 (gridColXml (colWOf w 5))) ∧
    (∀ h : ℤ, (tableRowsFragments h defaultGrid).length = 5) ∧
    (∀ (n : ℕ), 0 < n → ∀ w : ℤ,
      |(n : ℚ) * (colWOf w n : ℚ) - (w : ℚ)| ≤ (n : ℚ)/2) ∧
    (∀ ri, rowBg ri ≠ rowBg (ri + 1) ∧ rowBg ri = rowBg (ri + 2)) := by
  have hgrid : gridOrDefault td = defaultGrid := by
    rcases htd with rfl | rfl <;> rfl
  refine ⟨splitFirst_append _ _ _ _ hsp, ?_, rfl, by decide, by decide, ?_, ?_, ?_, ?_⟩
  · have hnd : noDollar (tableFrameXml frameId
        (jsMathRound (jsOrQ el.x 1 * 914400)) (jsMathRound (jsOrQ el.y 1 * 914400))
        (jsMathRound (jsOrQ el.width 6 * 914400))
        (jsMathRound (jsOrQ el.height 3 * 914400)) defaultGrid ++
          strL "</p:spTree>") = true :=
      noDollar_append_intro (noDollar_tableFrameXml _ _ _ _ _ _ (by decide)) (by decide)
    rw [insertTableIntoSlide_eq slideXml a b td el frameId hsp, hgrid,
      getSubstitution_noDollar _ _ _ _ hnd]
    simp
  · intro w
    rfl
  · intro h
    unfold tableRowsFragments
    rw [List.length_map]
    decide
  · intro n hn w
    have hnq : (0 : ℚ) < (n : ℚ) := by exact_mod_cast hn
    have hne : (n : ℚ) ≠ 0 := ne_of_gt hnq
    have herr := jsMathRound_half_err ((w : ℚ) / (n : ℚ))
    have hfac : (n : ℚ) * ((colWOf w n : ℚ) - (w : ℚ) / (n : ℚ)) =
        (n : ℚ) * (colWOf w n : ℚ) - (w : ℚ) := by
      field_simp
      ring
    calc |(n : ℚ) * (colWOf w n : ℚ) - (w : ℚ)|
        = |(n : ℚ) * ((colWOf w n : ℚ) - (w : ℚ) / (n : ℚ))| := by rw [hfac]
      _ = |(n : ℚ)| * |(colWOf w n : ℚ) - (w : ℚ) / (n : ℚ)| := abs_mul _ _
      _ = (n : ℚ) * |(colWOf w n : ℚ) - (w : ℚ) / (n : ℚ)| := by
          rw [abs_of_pos hnq]
      _ ≤ (n : ℚ) * (1/2) := by
          exact mul_le_mul_of_nonneg_left herr (le_of_lt hnq)
      _ = (n : ℚ)/2 := by ring
  · intro ri
    have h2 : (ri + 2) % 2 = ri % 2 := by omega
    constructor
    · by_cases h : ri % 2 = 0
      · unfold rowBg
        rw [if_pos h, if_neg (show ¬(ri + 1) % 2 = 0 by omega)]
        decide
      · unfold rowBg
        rw [if_neg h, if_pos (show (ri + 1) % 2 = 0 by omega)]
        decide
    · unfold rowBg
      rw [h2]

/-- Witness for C8 on a one-shape slide and a `none` grid. -/
theorem insertTable_default_grid_witness :
    ((none : Option (List (List (List Char)))) = none ∨
      (none : Option (List (List (List Char)))) = some []) ∧
    splitFirst (strL "</p:spTree>") (strL "<p:spTree><p:sp/></p:spTree>") =
      some (strL "<p:spTree><p:sp/>", []) ∧
    (strL "<p:spTree><p:sp/></p:spTree>" =
      strL "<p:spTree><p:sp/>" ++ strL "</p:spTree>" ++ [] ∧
    insertTableIntoSlide (strL "<p:spTree><p:sp/></p:spTree>") none
        ⟨some 1, some 2, some 6, some 3⟩ 42 =
      strL "<p:spTree><p:sp/>" ++ tableFrameXml 42
          (jsMathRound (jsOrQ (some 1) 1 * 914400))
          (jsMathRound (jsOrQ (some 2) 1 * 914400))
          (jsMathRound (jsOrQ (some 6) 6 * 914400))
          (jsMathRound (jsOrQ (some 3) 3 * 914400)) defaultGrid ++
        strL "</p:spTree>" ++ [] ∧
    defaultGrid.length = 5 ∧
    (∀ r, r < 5 → ∀ c, c < 5 →
      (defaultGrid[r]?.bind fun row => row[c]?) =
        some (strL "Cell " ++ natDigits (r + 1) ++ strL "-" ++ natDigits (c + 1))) ∧
    (∀ row ∈ defaultGrid, row.length = 5) ∧
    (∀ w : ℤ, ((defaultGrid.headD []).map
        fun _ => gridColXml (colWOf w (defaultGrid.headD []).length)) =
      List.replicate 5 (gridColXml (colWOf w 5))) ∧
    (∀ h : ℤ, (tableRowsFragments h defaultGrid).length = 5) ∧
    (∀ (n : ℕ), 0 < n → ∀ w : ℤ,
      |(n : ℚ) * (colWOf w n : ℚ) - (w : ℚ)| ≤ (n : ℚ)/2) ∧
    (∀ ri, rowBg ri ≠ rowBg (ri + 1) ∧ rowBg ri = rowBg (ri + 2))) :=
  ⟨Or.inl rfl, by decide,
    insertTable_default_grid (strL "<p:spTree><p:sp/></p:spTree>")
      (strL "<p:spTree><p:sp/>") [] ⟨some 1, some 2, some 6, some 3⟩ 42 none
      (Or.inl rfl) (by decide)⟩

/-- C10 (amended): both table generators interpolate each cell string
verbatim between `<a:t>` and `</a:t>` — no XML entity escaping — so a cell
containing XML metacharacters such as `<` or `&` is copied unescaped into
the generated frame XML, into the replacement table XML, and through the
callback-replacer of table replacement into the slide.  Table insertion,
however, splices with a **string**-replacement `String.replace`, whose
`GetSubstitution` step rewrites `$$`, `$&`, `` $` `` and `$'`; the cell
therefore reaches the patched slide verbatim under the proviso that no
cell of the grid contains a `$` character. -/
theorem table_cells_verbatim (g : List (List (List Char))) (r c : ℕ)
    (row : List (List Char)) (s : List Char)
    (hr : g[r]? = some row) (hc : row[c]? = some s) :
    (∀ frameId x y w h, ∃ p q,
      tableFrameXml frameId x y w h g =
        p ++ (strL "<a:t>" ++ s ++ strL "</a:t>") ++ q) ∧
    (∃ p q, replTableXml g = p ++ (strL "<a:t>" ++ s ++ strL "</a:t>") ++ q) ∧
    (∀ slideXml a b el frameId,
      splitFirst (strL "</p:spTree>") slideXml = some (a, b) →
      (∀ row' ∈ g, ∀ cell ∈ row', noDollar cell = true) →
      ∃ p q, insertTableIntoSlide slideXml (some g) el frameId =
        p ++ (strL "<a:t>" ++ s ++ strL "</a:t>") ++ q) ∧
    (∀ slideXml a rest m d,
      splitFirst (strL "<a:tbl") slideXml = some (a, rest) →
      splitFirst (strL "</a:tbl>") rest = some (m, d) →
      ∃ p q, replaceTableInXml slideXml (some g) =
        p ++ (strL "<a:t>" ++ s ++ strL "</a:t>") ++ q) := by
  have hsrow : s ∈ row := List.getElem?_mem hc
  have hmemIdx : (r, row) ∈ rowsWithIndex 0 g := by
    have := rowsWithIndex_mem g 0 r row hr
    simpa using this
  have hgd : gridOrDefault (some g) = g := by
    cases g with
    | nil => simp at hr
    | cons g0 gs => rfl
  have hframe : ∀ frameId x y w h, ∃ p q,
      tableFrameXml frameId x y w h g =
        p ++ (strL "<a:t>" ++ s ++ strL "</a:t>") ++ q := by
    intro frameId x y w h
    have hcell : ∃ p q, tableCellXml (rowBg r) s =
        p ++ (strL "<a:t>" ++ s ++ strL "</a:t>") ++ q :=
      ⟨tableCellPre, tableCellMid ++ rowBg r ++ tableCellSuf,
        by simp [tableCellXml]⟩
    have hflat : ∃ p q, (row.map (tableCellXml (rowBg r))).flatten =
        p ++ tableCellXml (rowBg r) s ++ q :=
      flatten_map_infix _ row s hsrow
    have hrowinf : ∃ p q, tableRowXml (rowHOf h g.length) r row =
        p ++ (row.map (tableCellXml (rowBg r))).flatten ++ q :=
      ⟨strL "\n            <a:tr h=\"" ++ intToStr (rowHOf h g.length) ++
          strL "\">\n              ",
        strL "\n            </a:tr>", by simp [tableRowXml]⟩
    have hrows : ∃ p q, (tableRowsFragments h g).flatten =
        p ++ tableRowXml (rowHOf h g.length) r row ++ q := by
      have := flatten_map_infix
        (fun p : ℕ × List (List Char) => tableRowXml (rowHOf h g.length) p.1 p.2)
        (rowsWithIndex 0 g) (r, row) hmemIdx
      simpa [tableRowsFragments] using this
    have hfr : ∃ p q, tableFrameXml frameId x y w h g =
        p ++ (tableRowsFragments h g).flatten ++ q :=
      ⟨tblFrameSeg1 ++ natDigits frameId ++ tblFrameSeg2 ++ intToStr x ++
          tblFrameSeg3 ++ intToStr y ++ tblFrameSeg4 ++ intToStr w ++
          tblFrameSeg5 ++ intToStr h ++ tblFrameSeg6 ++
          ((g.headD []).map fun _ => gridColXml (colWOf w (g.headD []).length)).flatten ++
          tblFrameSeg7,
        tblFrameSeg8, by simp [tableFrameXml]⟩
    exact infix_chain (infix_chain (infix_chain (infix_chain hfr hrows) hrowinf)
      hflat) hcell
  have hreplT : ∃ p q, replTableXml g =
      p ++ (strL "<a:t>" ++ s ++ strL "</a:t>") ++ q := by
    have hcell : ∃ p q, replCellXml (rowBg r) s =
        p ++ (strL "<a:t>" ++ s ++ strL "</a:t>") ++ q :=
      ⟨replCellPre, replCellMid ++ rowBg r ++ replCellSuf, by simp [replCellXml]⟩
    have hflat : ∃ p q, (row.map (replCellXml (rowBg r))).flatten =
        p ++ replCellXml (rowBg r) s ++ q :=
      flatten_map_infix _ row s hsrow
    have hrowinf : ∃ p q, replRowXml r row =
        p ++ (row.map (replCellXml (rowBg r))).flatten ++ q :=
      ⟨strL "\n        <a:tr h=\"" ++ intToStr 370840 ++ strL "\">\n          ",
        strL "\n        </a:tr>", by simp [replRowXml]⟩
    have hrows : ∃ p q,
        ((rowsWithIndex 0 g).map fun p => replRowXml p.1 p.2).flatten =
          p ++ replRowXml r row ++ q := by
      have := flatten_map_infix
        (fun p : ℕ × List (List Char) => replRowXml p.1 p.2)
        (rowsWithIndex 0 g) (r, row) hmemIdx
      simpa using this
    have htbl : ∃ p q, replTableXml g =
        p ++ ((rowsWithIndex 0 g).map fun p => replRowXml p.1 p.2).flatten ++ q :=
      ⟨replTblSeg1 ++ ((g.headD []).map fun _ => gridColXml 1200000).flatten ++
          replTblSeg2,
        replTblSeg3, by simp [replTableXml]⟩
    exact infix_chain (infix_chain (infix_chain (infix_chain htbl hrows) hrowinf)
      hflat) hcell
  refine ⟨hframe, hreplT, ?_, ?_⟩
  · intro slideXml a b el frameId hsp hg
    obtain ⟨p, q, hpq⟩ := hframe frameId
      (jsMathRound (jsOrQ el.x 1 * 914400)) (jsMathRound (jsOrQ el.y 1 * 914400))
      (jsMathRound (jsOrQ el.width 6 * 914400))
      (jsMathRound (jsOrQ el.height 3 * 914400))
    have hnd : noDollar (tableFrameXml frameId
        (jsMathRound (jsOrQ el.x 1 * 914400)) (jsMathRound (jsOrQ el.y 1 * 914400))
        (jsMathRound (jsOrQ el.width 6 * 914400))
        (jsMathRound (jsOrQ el.height 3 * 914400)) g ++
          strL "</p:spTree>") = true :=
      noDollar_append_intro (noDollar_tableFrameXml _ _ _ _ _ _ hg) (by decide)
    refine ⟨a ++ p, q ++ (strL "</p:spTree>" ++ b), ?_⟩
    rw [insertTableIntoSlide_eq slideXml a b (some g) el frameId hsp, hgd,
      getSubstitution_noDollar _ _ _ _ hnd, hpq]
    simp
  · intro slideXml a rest m d h1 h2
    have hstep : replaceTableInXml slideXml (some g) =
        a ++ replTableXml g ++
          replaceTablesRun (replTableXml g) slideXml.length d := by
      unfold replaceTableInXml replaceTables
      rw [hgd]
      simp only [replaceTablesRun, h1, h2]
    obtain ⟨p, q, hpq⟩ := hreplT
    refine ⟨a ++ p, q ++ replaceTablesRun (replTableXml g) slideXml.length d, ?_⟩
    rw [hstep, hpq]
    simp

/-- Witness for C10: a 1×1 grid whose only cell is the string `a<b&c`,
inserted into a one-shape slide and replacing the table of a slide with
one existing `<a:tbl>` block. -/
theorem table_cells_verbatim_witness :
    ([[strL "a<b&c"]] : List (List (List Char)))[0]? = some [strL "a<b&c"] ∧
    ([strL "a<b&c"] : List (List Char))[0]? = some (strL "a<b&c") ∧
    ((∀ frameId x y w h, ∃ p q,
      tableFrameXml frameId x y w h [[strL "a<b&c"]] =
        p ++ (strL "<a:t>" ++ strL "a<b&c" ++ strL "</a:t>") ++ q) ∧
    (∃ p q, replTableXml [[strL "a<b&c"]] =
      p ++ (strL "<a:t>" ++ strL "a<b&c" ++ strL "</a:t>") ++ q) ∧
    (∀ slideXml a b el frameId,
      splitFirst (strL "</p:spTree>") slideXml = some (a, b) →
      (∀ row' ∈ ([[strL "a<b&c"]] : List (List (List Char))),
        ∀ cell ∈ row', noDollar cell = true) →
      ∃ p q, insertTableIntoSlide slideXml (some [[strL "a<b&c"]]) el frameId =
        p ++ (strL "<a:t>" ++ strL "a<b&c" ++ strL "</a:t>") ++ q) ∧
    (∀ slideXml a rest m d,
      splitFirst (strL "<a:tbl") slideXml = some (a, rest) →
      splitFirst (strL "</a:tbl>") rest = some (m, d) →
      ∃ p q, replaceTableInXml slideXml (some [[strL "a<b&c"]]) =
        p ++ (strL "<a:t>" ++ strL "a<b&c" ++ strL "</a:t>") ++ q)) :=
  ⟨by decide, by decide,
    table_cells_verbatim [[strL "a<b&c"]] 0 0 [strL "a<b&c"] (strL "a<b&c")
      (by decide) (by decide)⟩

set_option maxRecDepth 8000 in
set_option maxHeartbeats 4000000 in
/-- C10 (counterexample): the cell string `$&` is **not** copied verbatim
into the slide by table insertion — `GetSubstitution` replaces it with the
matched `</p:spTree>` during the splice, so no `<a:t>$&</a:t>` run occurs
anywhere in the patched slide. -/
theorem table_cell_dollar_not_verbatim :
    ¬ ∃ p q, insertTableIntoSlide (strL "<p:spTree></p:spTree>")
        (some [[strL "$&"]]) ⟨none, none, none, none⟩ 1 =
      p ++ (strL "<a:t>" ++ strL "$&" ++ strL "</a:t>") ++ q := by
  rintro ⟨p, q, heq⟩
  have hx : jsMathRound
      (jsOrQ (⟨none, none, none, none⟩ : TableGeo).x 1 * 914400) = 914400 := by
    show jsMathRound ((1 : ℚ) * 914400) = 914400
    unfold jsMathRound
    rw [Int.floor_eq_iff]
    norm_num
  have hw : jsMathRound
      (jsOrQ (⟨none, none, none, none⟩ : TableGeo).width 6 * 914400) = 5486400 := by
    show jsMathRound ((6 : ℚ) * 914400) = 5486400
    unfold jsMathRound
    rw [Int.floor_eq_iff]
    norm_num
  have hh : jsMathRound
      (jsOrQ (⟨none, none, none, none⟩ : TableGeo).height 3 * 914400) = 2743200 := by
    show jsMathRound ((3 : ℚ) * 914400) = 2743200
    unfold jsMathRound
    rw [Int.floor_eq_iff]
    norm_num
  have hcw : colWOf 5486400 1 = 5486400 := by
    unfold colWOf jsMathRound
    rw [Int.floor_eq_iff]
    norm_num
  have hrh : rowHOf 2743200 1 = 2743200 := by
    unfold rowHOf jsMathRound
    rw [Int.floor_eq_iff]
    norm_num
  have hnone : hasOccur (strL "<a:t>" ++ strL "$&" ++ strL "</a:t>")
      (insertTableIntoSlide (strL "<p:spTree></p:spTree>")
        (some [[strL "$&"]]) ⟨none, none, none, none⟩ 1) = false := by
    rw [insertTableIntoSlide_eq (strL "<p:spTree></p:spTree>") (strL "<p:spTree>")
        [] (some [[strL "$&"]]) ⟨none, none, none, none⟩ 1 (by decide),
      hx, hw, hh]
    rw [show gridOrDefault (some [[strL "$&"]]) = [[strL "$&"]] from rfl]
    unfold tableFrameXml tableRowsFragments
    rw [show (([[strL "$&"]] : List (List (List Char))).headD []).length = 1
        from rfl,
      show ([[strL "$&"]] : List (List (List Char))).length = 1 from rfl,
      hcw, hrh]
    decide
  exact hasOccur_false_no_occurrence _ (by decide) _ hnone p q heq

/-! ## The generate loop (`/api/generate`, `server.js` lines 1534–1621)

For each requested slide the handler computes
`ppt/slides/slide${slideId}.xml`; if the archive has no such entry it logs
and `continue`s (no error, the batch goes on), otherwise it runs the
per-element patch pipeline on that slide's XML and writes the result back
under the same path.  The archive is modelled as `JsObj`
(path → content); the per-slide patching (matcher + text/table/image
patchers, modelled individually above) is abstracted as a function
`patch : slide id → xml → xml`.  The code's `if (originalSlide)` guard can
additionally skip the write-back, which leaves the entry's value unchanged
exactly as writing the unpatched value would; media/relationship writes go
to non-slide paths and do not touch slide entries. -/

/-- The archive path of slide `n`. -/
def slidePath (n : ℕ) : List Char :=
  strL "ppt/slides/slide" ++ natDigits n ++ strL ".xml"

/-- One iteration of the generate loop for slide id `n`:
`continue` when the entry is missing, else patch and write back. -/
def applySlideEdit (patch : ℕ → List Char → List Char) (a : JsObj) (n : ℕ) :
    JsObj :=
  match a (slidePath n) with
  | none => a
  | some xml => objSet a (slidePath n) (patch n xml)

/-- The generate loop over the requested slide ids. -/
def applySlideEdits (patch : ℕ → List Char → List Char) (arch : JsObj)
    (ids : List ℕ) : JsObj :=
  ids.foldl (applySlideEdit patch) arch

theorem applySlideEdits_cons (patch : ℕ → List Char → List Char)
    (arch : JsObj) (n : ℕ) (rest : List ℕ) :
    applySlideEdits patch arch (n :: rest) =
      applySlideEdits patch (applySlideEdit patch arch n) rest := by
  unfold applySlideEdits
  rw [List.foldl_cons]

theorem applySlideEdit_isSome (patch : ℕ → List Char → List Char)
    (a : JsObj) (n : ℕ) (p : List Char) :
    ((applySlideEdit patch a n) p).isSome = (a p).isSome := by
  unfold applySlideEdit
  cases h : a (slidePath n) with
  | none => rfl
  | some xml =>
    show (objSet a (slidePath n) (patch n xml) p).isSome = (a p).isSome
    unfold objSet
    by_cases hp : p = slidePath n
    · rw [if_pos hp, hp, h]
      rfl
    · rw [if_neg hp]

theorem applySlideEdits_isSome (patch : ℕ → List Char → List Char) :
    ∀ (ids : List ℕ) (arch : JsObj) (p : List Char),
      ((applySlideEdits patch arch ids) p).isSome = (arch p).isSome := by
  intro ids
  induction ids with
  | nil => intro arch p; rfl
  | cons n rest ih =>
    intro arch p
    rw [applySlideEdits_cons, ih (applySlideEdit patch arch n) p,
      applySlideEdit_isSome]

theorem applySlideEdits_filter (patch : ℕ → List Char → List Char) :
    ∀ (ids : List ℕ) (arch : JsObj) (p : List Char),
      applySlideEdits patch arch ids p =
        applySlideEdits patch arch
          (ids.filter fun n => (arch (slidePath n)).isSome) p := by
  intro ids
  induction ids with
  | nil => intro arch p; rfl
  | cons n rest ih =>
    intro arch p
    by_cases hn : (arch (slidePath n)).isSome = true
    · have hfilter : (n :: rest).filter (fun m => (arch (slidePath m)).isSome) =
          n :: rest.filter fun m => (arch (slidePath m)).isSome := by
        simp [List.filter_cons, hn]
      rw [hfilter, applySlideEdits_cons, applySlideEdits_cons]
      have hcongr : rest.filter (fun m => (arch (slidePath m)).isSome) =
          rest.filter fun m =>
            ((applySlideEdit patch arch n) (slidePath m)).isSome := by
        apply List.filter_congr
        intro m _
        rw [applySlideEdit_isSome]
      rw [hcongr]
      exact ih (applySlideEdit patch arch n) p
    · have hnone : arch (slidePath n) = none := by
        rw [← Option.not_isSome_iff_eq_none]
        exact fun hc => hn hc
      have hskip : applySlideEdit patch arch n = arch := by
        unfold applySlideEdit
        rw [hnone]
      have hfilter : (n :: rest).filter (fun m => (arch (slidePath m)).isSome) =
          rest.filter fun m => (arch (slidePath m)).isSome := by
        simp [List.filter_cons, hn]
      rw [hfilter, applySlideEdits_cons, hskip]
      exact ih arch p

theorem applySlideEdits_untouched (patch : ℕ → List Char → List Char) :
    ∀ (ids : List ℕ) (arch : JsObj) (p : List Char),
      (∀ n ∈ ids, p ≠ slidePath n) →
      applySlideEdits patch arch ids p = arch p := by
  intro ids
  induction ids with
  | nil => intro arch p _; rfl
  | cons n rest ih =>
    intro arch p hp
    rw [applySlideEdits_cons]
    have h1 : applySlideEdit patch arch n p = arch p := by
      unfold applySlideEdit
      cases h : arch (slidePath n) with
      | none => rfl
      | some xml =>
        show objSet arch (slidePath n) (patch n xml) p = arch p
        unfold objSet
        rw [if_neg (hp n (by simp))]
    rw [ih (applySlideEdit patch arch n) p fun m hm => hp m (by simp [hm]), h1]

/-- C9: a requested slide id whose file is absent from the archive is
skipped without aborting the batch — the run is equivalent to one over
only the ids whose slide files exist; the edit pass never adds or removes
archive entries (every existing slide is still present); and any path not
named `ppt/slides/slide{id}.xml` for a requested id keeps its original
content byte for byte. -/
theorem generate_skips_missing_slides (patch : ℕ → List Char → List Char)
    (arch : JsObj) (ids : List ℕ) :
    (∀ p, ((applySlideEdits patch arch ids) p).isSome = (arch p).isSome) ∧
    (∀ p, applySlideEdits patch arch ids p =
      applySlideEdits patch arch
        (ids.filter fun n => (arch (slidePath n)).isSome) p) ∧
    (∀ p, (∀ n ∈ ids, p ≠ slidePath n) →
      applySlideEdits patch arch ids p = arch p) :=
  ⟨fun p => applySlideEdits_isSome patch ids arch p,
   fun p => applySlideEdits_filter patch ids arch p,
   fun p hp => applySlideEdits_untouched patch ids arch p hp⟩

/-- Witness for C9: editing slides `[7, 1]` of an archive that only has
slide 1; a path other than the targeted ones is untouched. -/
theorem generate_skips_missing_slides_witness :
    (∀ n ∈ [7, 1], strL "docProps/app.xml" ≠ slidePath n) ∧
    applySlideEdits (fun _ s => s ++ strL "<x/>")
        (fun p => if p = slidePath 1 then some (strL "<a/>") else none) [7, 1]
        (strL "docProps/app.xml") =
      (fun p : List Char => if p = slidePath 1 then some (strL "<a/>") else none)
        (strL "docProps/app.xml") :=
  ⟨by decide,
    (generate_skips_missing_slides (fun _ s => s ++ strL "<x/>")
        (fun p => if p = slidePath 1 then some (strL "<a/>") else none)
        [7, 1]).2.2
      (strL "docProps/app.xml") (by decide)⟩

end Cml
